import Mathlib

/-!
# Verification of the Chișinău traffic post-processing pipeline

A shallow embedding of the trace-scanning, trajectory-building, edge-speed
aggregation, geometry-merging, lane-offsetting, congestion-classification and
validation logic of `make_deckgl.py` and `postprocess.py`, together with
theorems settling the specified properties.

Conventions of the embedding:
* A trace line is modelled after attribute extraction: the regex searches of
  the source either yield a value (`some`) or fail (`none`).
* Machine floats are modelled as exact rationals (`ℚ`); `float(...)` parses
  to a rational, `round(v, k)` is half-even decimal rounding, `int(v)` is
  truncation toward zero.
* Python dicts are insertion-ordered association lists; `defaultdict`
  accumulators are association lists updated in place.
* Fallible list indexing (Python `IndexError`) is modelled with `Option`.
-/

set_option maxHeartbeats 1000000

namespace ChisinauTraffic

/-- One line of the FCD trace, as seen by the scanners after regex attribute
extraction: a `<timestep ...>` boundary line (whose `time` attribute may fail
to extract), a `<vehicle ...>` sample line (each attribute may be missing),
or any other line. -/
inductive Line where
  | timestep (t : Option ℚ)
  | vehicle (vid : Option String) (x : Option ℚ) (y : Option ℚ)
      (speed : Option ℚ) (lane : Option String)
  | other
deriving DecidableEq

/-- `MORNING_START = 7*3600` from the sources. -/
def MORNING_START : ℚ := 7 * 3600

/-- `MORNING_END = 9*3600` from the sources. -/
def MORNING_END : ℚ := 9 * 3600

/-- `EVENING_START = 17*3600` from `postprocess.py`. -/
def EVENING_START : ℚ := 17 * 3600

/-- `EVENING_END = 20*3600` from `postprocess.py`. -/
def EVENING_END : ℚ := 20 * 3600

/-- `SAMPLE_EVERY = 30` from `postprocess.py` step 1. -/
def SAMPLE_EVERY : ℤ := 30

/-- `BUFFER = 60` from `make_deckgl.py`. -/
def BUFFER : ℚ := 60

/-- `MAX_VEHICLES = 8000` from `make_deckgl.py`. -/
def MAX_VEHICLES : ℕ := 8000

/-- `MIN_WAYPOINTS = 5` from `make_deckgl.py`. -/
def MIN_WAYPOINTS : ℕ := 5

/-- Python `int(q)` on a float: truncation toward zero. -/
def truncInt (q : ℚ) : ℤ := if 0 ≤ q then ⌊q⌋ else ⌈q⌉

/-- Round a rational to the nearest integer, ties to even
(the rounding mode of Python `round`). -/
def roundHalfEven (q : ℚ) : ℤ :=
  let f := ⌊q⌋
  let r := q - f
  if r < 1/2 then f
  else if 1/2 < r then f + 1
  else if 2 ∣ f then f else f + 1

/-- Python `round(q, k)`: half-even rounding to `k` decimal places. -/
def roundTo (k : ℕ) (q : ℚ) : ℚ := (roundHalfEven (q * 10 ^ k) : ℚ) / 10 ^ k

/-- A waypoint `[int(cur_time), round(x, _), round(y, _), round(speed*3.6, 1)]`. -/
abbrev Wp := ℤ × ℚ × ℚ × ℚ

/-- The waypoint time component. -/
def Wp.t (w : Wp) : ℤ := w.1

/-- `vehicles[vid].append(w)`, creating `vehicles[vid] = []` on first sight:
insertion-ordered association-list update. -/
def addWp : List (String × List Wp) → String → Wp → List (String × List Wp)
  | [], vid, w => [(vid, [w])]
  | (k, ws) :: rest, vid, w =>
      if k = vid then (k, ws ++ [w]) :: rest else (k, ws) :: addWp rest vid w

/-- The keys of an association list. -/
def keysOf {β : Type} (l : List (String × β)) : List String := l.map (·.1)

/-- Scanner state of `make_deckgl.py`: the `vehicles` dict, `cur_time`
and the `in_window` flag. -/
structure DState where
  vehicles : List (String × List Wp)
  curTime : ℚ
  inWindow : Bool
deriving DecidableEq

/-- Initial state of the `make_deckgl.py` scan:
`vehicles = {}`, `cur_time = -1`, `in_window = False`. -/
def dInit : DState := ⟨[], -1, false⟩

/-- The waypoint `make_deckgl.py` appends for an in-window sample. -/
def dWp (cur x y sp : ℚ) : Wp :=
  (truncInt cur, roundTo 5 x, roundTo 5 y, roundTo 1 (sp * (18/5)))

/-- The scan loop of `make_deckgl.py` (lines 41–77): on a boundary line whose
time extracts, update `cur_time` and `in_window` and break once
`cur_time > MORNING_END + BUFFER`; on a sample line, append a waypoint only
when `in_window` and all four attributes extracted. -/
def deckglScanEarly : List Line → DState → DState
  | [], s => s
  | Line.timestep none :: ls, s => deckglScanEarly ls s
  | Line.timestep (some t) :: ls, s =>
      let s' : DState :=
        ⟨s.vehicles, t, decide (MORNING_START - BUFFER ≤ t ∧ t ≤ MORNING_END + BUFFER)⟩
      if MORNING_END + BUFFER < t then s' else deckglScanEarly ls s'
  | Line.vehicle vid x y sp _ :: ls, s =>
      if s.inWindow then
        match vid, x, y, sp with
        | some v, some xv, some yv, some sv =>
            deckglScanEarly ls ⟨addWp s.vehicles v (dWp s.curTime xv yv sv), s.curTime, s.inWindow⟩
        | _, _, _, _ => deckglScanEarly ls s
      else deckglScanEarly ls s
  | Line.other :: ls, s => deckglScanEarly ls s

/-- The same scan as `deckglScanEarly` but reading the entire trace: the
early `break` is removed.  This is the specification-side full scan against
which the early stop is compared. -/
def deckglScanFull : List Line → DState → DState
  | [], s => s
  | Line.timestep none :: ls, s => deckglScanFull ls s
  | Line.timestep (some t) :: ls, s =>
      deckglScanFull ls
        ⟨s.vehicles, t, decide (MORNING_START - BUFFER ≤ t ∧ t ≤ MORNING_END + BUFFER)⟩
  | Line.vehicle vid x y sp _ :: ls, s =>
      if s.inWindow then
        match vid, x, y, sp with
        | some v, some xv, some yv, some sv =>
            deckglScanFull ls ⟨addWp s.vehicles v (dWp s.curTime xv yv sv), s.curTime, s.inWindow⟩
        | _, _, _, _ => deckglScanFull ls s
      else deckglScanFull ls s
  | Line.other :: ls, s => deckglScanFull ls s

/-- Finalization of `make_deckgl.py` (lines 83–94): keep vehicles with at
least `MIN_WAYPOINTS` waypoints; if more than `MAX_VEHICLES` remain, stable
sort by waypoint count descending and keep the first `MAX_VEHICLES`. -/
def deckglFinalize (vs : List (String × List Wp)) : List (String × List Wp) :=
  let valid := vs.filter (fun p => MIN_WAYPOINTS ≤ p.2.length)
  if MAX_VEHICLES < valid.length then
    (valid.mergeSort (fun a b => decide (b.2.length ≤ a.2.length))).take MAX_VEHICLES
  else valid

/-- Scanner state of `postprocess.py` step 4: the `vehicles` dict and
`cur_time` (there is no `in_window` flag; the window test is made on each
sample line). -/
structure P4State where
  vehicles : List (String × List Wp)
  curTime : ℚ
deriving DecidableEq

/-- Initial state of the `postprocess.py` step-4 scan. -/
def p4Init : P4State := ⟨[], -1⟩

/-- The waypoint `postprocess.py` step 4 appends (coordinates rounded to 6
decimal places rather than 5). -/
def p4Wp (cur x y sp : ℚ) : Wp :=
  (truncInt cur, roundTo 6 x, roundTo 6 y, roundTo 1 (sp * (18/5)))

/-- The scan loop of `postprocess.py` step 4 (lines 195–211): break once
`cur_time > MORNING_END + 120`; a sample line is folded when
`MORNING_START - 60 ≤ cur_time ≤ MORNING_END + 60` and all four attributes
extracted. -/
def pp4ScanEarly : List Line → P4State → P4State
  | [], s => s
  | Line.timestep none :: ls, s => pp4ScanEarly ls s
  | Line.timestep (some t) :: ls, s =>
      if MORNING_END + 120 < t then ⟨s.vehicles, t⟩ else pp4ScanEarly ls ⟨s.vehicles, t⟩
  | Line.vehicle vid x y sp _ :: ls, s =>
      if MORNING_START - 60 ≤ s.curTime ∧ s.curTime ≤ MORNING_END + 60 then
        match vid, x, y, sp with
        | some v, some xv, some yv, some sv =>
            pp4ScanEarly ls ⟨addWp s.vehicles v (p4Wp s.curTime xv yv sv), s.curTime⟩
        | _, _, _, _ => pp4ScanEarly ls s
      else pp4ScanEarly ls s
  | Line.other :: ls, s => pp4ScanEarly ls s

/-- The step-4 scan without the early `break`: the specification-side full
scan. -/
def pp4ScanFull : List Line → P4State → P4State
  | [], s => s
  | Line.timestep none :: ls, s => pp4ScanFull ls s
  | Line.timestep (some t) :: ls, s => pp4ScanFull ls ⟨s.vehicles, t⟩
  | Line.vehicle vid x y sp _ :: ls, s =>
      if MORNING_START - 60 ≤ s.curTime ∧ s.curTime ≤ MORNING_END + 60 then
        match vid, x, y, sp with
        | some v, some xv, some yv, some sv =>
            pp4ScanFull ls ⟨addWp s.vehicles v (p4Wp s.curTime xv yv sv), s.curTime⟩
        | _, _, _, _ => pp4ScanFull ls s
      else pp4ScanFull ls s
  | Line.other :: ls, s => pp4ScanFull ls s

/-- Finalization of `postprocess.py` step 4 (line 213): keep trajectories
with at least 5 waypoints.  No cap is applied. -/
def pp4Deckgl (vs : List (String × List Wp)) : List (String × List Wp) :=
  vs.filter (fun p => 5 ≤ p.2.length)

/-- The timestep times that extract successfully, in trace order. -/
def timesOf : List Line → List ℚ
  | [] => []
  | Line.timestep (some t) :: ls => t :: timesOf ls
  | Line.timestep none :: ls => timesOf ls
  | Line.vehicle _ _ _ _ _ :: ls => timesOf ls
  | Line.other :: ls => timesOf ls

/-- `lane.rsplit('_', 1)[0]`: drop the suffix after the last underscore; a
lane id without an underscore is its own segment id. -/
def baseOfLane (s : String) : String :=
  match s.data.reverse.dropWhile (· ≠ '_') with
  | [] => s
  | _ :: restRev => String.mk restRev.reverse

/-- `in_peak` of `postprocess.py` step 1: the current time lies in the
morning or evening peak interval (both ends inclusive). -/
def inPeak (t : ℚ) : Bool :=
  decide ((MORNING_START ≤ t ∧ t ≤ MORNING_END) ∨ (EVENING_START ≤ t ∧ t ≤ EVENING_END))

/-- `sample_this` as recomputed on a boundary line:
`in_peak and int(current_time) % SAMPLE_EVERY == 0`. -/
def sampleOf (t : ℚ) : Bool := inPeak t && (truncInt t % SAMPLE_EVERY == 0)

/-- One `edge_speed_sum[edge_id] += speed; edge_speed_count[edge_id] += 1`
update of the two parallel `defaultdict`s, modelled as one association list
from segment id to (speed sum, sample count). -/
def foldEdge : List (String × ℚ × ℕ) → String → ℚ → List (String × ℚ × ℕ)
  | [], e, v => [(e, v, 1)]
  | (k, sm, c) :: rest, e, v =>
      if k = e then (k, sm + v, c + 1) :: rest else (k, sm, c) :: foldEdge rest e v

/-- Scanner state of `postprocess.py` step 1: the speed accumulator table,
`current_time`, `in_peak` and `sample_this`. -/
structure AggState where
  table : List (String × ℚ × ℕ)
  curTime : ℚ
  peak : Bool
  sampleThis : Bool
deriving DecidableEq

/-- Initial state of the step-1 scan: empty accumulators, `current_time = -1`,
`in_peak = False`, `sample_this = False`. -/
def aggInit : AggState := ⟨[], -1, false, false⟩

/-- The scan loop of `postprocess.py` step 1 (lines 42–70): boundary lines
recompute the time cursor and sampling flags; a sample line is folded when
`sample_this` holds and both `lane` and `speed` extracted, keyed by the
lane's segment id, with the speed converted to km/h (`* 3.6`). -/
def aggScan : List Line → AggState → AggState
  | [], s => s
  | Line.timestep none :: ls, s => aggScan ls s
  | Line.timestep (some t) :: ls, s => aggScan ls ⟨s.table, t, inPeak t, sampleOf t⟩
  | Line.vehicle _ _ _ sp lane :: ls, s =>
      if s.sampleThis then
        match lane, sp with
        | some l, some v => aggScan ls ⟨foldEdge s.table (baseOfLane l) (v * (18/5)), s.curTime, s.peak, s.sampleThis⟩
        | _, _ => aggScan ls s
      else aggScan ls s
  | Line.other :: ls, s => aggScan ls s

/-- The km/h speeds folded for segment id `e`, collected directly from the
trace with the same sampling flags: the specification-side description of
the samples that reach segment `e`'s accumulator. -/
def foldedAux (samp : Bool) : List Line → String → List ℚ
  | [], _ => []
  | Line.timestep none :: ls, e => foldedAux samp ls e
  | Line.timestep (some t) :: ls, e => foldedAux (sampleOf t) ls e
  | Line.vehicle _ _ _ sp lane :: ls, e =>
      if samp then
        match lane, sp with
        | some l, some v =>
            if baseOfLane l = e then v * (18/5) :: foldedAux samp ls e
            else foldedAux samp ls e
        | _, _ => foldedAux samp ls e
      else foldedAux samp ls e
  | Line.other :: ls, e => foldedAux samp ls e

/-- The km/h speeds folded for segment `e` over a whole trace started in the
initial scanner state. -/
def foldedSamples (ls : List Line) (e : String) : List ℚ := foldedAux false ls e

/-- Association-list lookup (Python `dict` access / `in` test). -/
def lookupTab : List (String × ℚ × ℕ) → String → Option (ℚ × ℕ)
  | [], _ => none
  | (k, sm, c) :: rest, e => if k = e then some (sm, c) else lookupTab rest e

/-- The finalized aggregate table of a trace: the accumulator table after the
step-1 scan from the initial state. -/
def aggTable (ls : List Line) : List (String × ℚ × ℕ) := (aggScan ls aggInit).table

/-- `mean_speed = edge_speed_sum[edge_id] / count` (line 82 of
`postprocess.py`). -/
def meanSpeed (sm : ℚ) (c : ℕ) : ℚ := sm / (c : ℚ)

/-- `sr_to_color` of `postprocess.py` (lines 112–118): map a speed ratio to
one of six colors by ascending thresholds 0.25, 0.45, 0.60, 0.75, 0.90. -/
def sr_to_color (sr : ℚ) : List ℕ :=
  if sr < 1/4 then [204, 0, 0]
  else if sr < 9/20 then [255, 68, 0]
  else if sr < 3/5 then [255, 136, 0]
  else if sr < 3/4 then [255, 187, 0]
  else if sr < 9/10 then [136, 204, 0]
  else [0, 170, 68]

/-- The six severity-band colors, most severe first. -/
def severityColors : List (List ℕ) :=
  [[204, 0, 0], [255, 68, 0], [255, 136, 0], [255, 187, 0], [136, 204, 0], [0, 170, 68]]

/-- A geographic point (lon, lat). -/
abbrev Point := ℚ × ℚ

/-- The direction vector `(dx, dy)` computed at vertex `i` of `offset_line`:
forward difference at the first point, backward difference at the last,
central difference elsewhere; `none` models a Python `IndexError`. -/
def dirAt (coords : List Point) (i : ℕ) : Option Point :=
  let n := coords.length
  if i = 0 then do
    let p1 ← coords[1]?
    let p0 ← coords[0]?
    pure (p1.1 - p0.1, p1.2 - p0.2)
  else if i = n - 1 then do
    let pl ← coords[n - 1]?
    let pk ← if 2 ≤ n then coords[n - 2]? else none
    pure (pl.1 - pk.1, pl.2 - pk.2)
  else do
    let pn ← coords[i + 1]?
    let pp ← coords[i - 1]?
    pure (pn.1 - pp.1, pn.2 - pp.2)

/-- The point `offset_line` emits for vertex `i`.  `sq` models `math.sqrt`
on floats (kept abstract, since exact square roots leave ℚ); the zero test
`L == 0` and the division structure are those of the source. -/
def offsetPoint (sq : ℚ → ℚ) (coords : List Point) (offset_m : ℚ) (i : ℕ) : Option Point := do
  let pt ← coords[i]?
  let d ← dirAt coords i
  let L := sq (d.1 * d.1 + d.2 * d.2)
  if L = 0 then pure pt
  else pure (pt.1 + (-d.2 / L) * offset_m / 75000, pt.2 + (d.1 / L) * offset_m / 111000)

/-- `offset_line` of `postprocess.py` (lines 120–130), with list indexing
made fallible: `none` models an `IndexError` aborting the run. -/
def offset_line (sq : ℚ → ℚ) (coords : List Point) (offset_m : ℚ) : Option (List Point) :=
  (List.range coords.length).mapM (offsetPoint sq coords offset_m)

/-- One iteration of the merge loop (lines 149–154): extend `merged` by the
next segment's converted polyline, dropping its first point when it is
within `5e-5` degrees of `merged`'s last point in each coordinate. -/
def mergeStep (merged ll : List Point) : List Point :=
  match merged.getLast?, ll with
  | some p, q :: rest =>
      if |q.1 - p.1| < 1/20000 ∧ |q.2 - p.2| < 1/20000 then merged ++ rest
      else merged ++ (q :: rest)
  | _, _ => merged ++ ll

/-- The merged polyline of a group's ordered segment polylines. -/
def mergeShapes (shapes : List (List Point)) : List Point :=
  shapes.foldl mergeStep []

/-- A network edge as the feature loop sees it: its converted polyline, its
optional congestion row `(mean_speed_rel, peak_flow)`, its length, and
whether its id belongs to a roundabout. -/
structure EdgeInfo where
  shape : List Point
  row : Option (ℚ × ℚ)
  length : ℚ
  inRoundabout : Bool
deriving DecidableEq

/-- A rendered line feature with its properties. -/
structure Feature where
  geometry : List Point
  speed_ratio : ℚ
  peak_flow : ℤ
  color : List ℕ
  n_lanes : ℕ
  is_roundabout : Bool
deriving DecidableEq

/-- The `(mean_speed_rel, peak_flow, length)` triples of the group's edges
that have a congestion row: the parallel lists `srs`, `flows`, `ws` of the
source, zipped. -/
def rowsOf (edges : List EdgeInfo) : List (ℚ × ℚ × ℚ) :=
  edges.filterMap (fun e => e.row.map (fun r => (r.1, r.2, e.length)))

/-- The perpendicular offset `(li - (n_lanes-1)/2.0) * 3.2` of lane `li` in
an `n`-lane group. -/
def laneOffset (n li : ℕ) : ℚ := ((li : ℚ) - ((n : ℚ) - 1) / 2) * (16/5)

/-- The offsets of all lanes of an `n`-lane group, in lane order. -/
def laneOffsets (n : ℕ) : List ℚ := (List.range n).map (laneOffset n)

/-- The features emitted for one group by the loop at lines 144–178 of
`postprocess.py`: merge the ordered shapes; skip the group (no features) if
the merged polyline has fewer than 2 points or no edge has a congestion row;
otherwise emit one unoffset feature for a single-lane group and `n_lanes`
offset features for a multi-lane group.  `none` models an `IndexError`
escaping from `offset_line`. -/
def groupFeatures (sq : ℚ → ℚ) (nLanes : ℕ) (edges : List EdgeInfo) : Option (List Feature) :=
  let merged := mergeShapes (edges.map (·.shape))
  if merged.length < 2 then some [] else
  let rows := rowsOf edges
  if rows = [] then some [] else
  let W := (rows.map (fun r => r.2.2)).sum
  let avg_sr := (rows.map (fun r => r.1 * r.2.2)).sum / W
  let avg_flow := (rows.map (fun r => r.2.1 * r.2.2)).sum / W
  let color := sr_to_color avg_sr
  let is_rb := edges.any (·.inRoundabout)
  if nLanes = 1 then
    some [⟨merged, roundTo 3 avg_sr, truncInt avg_flow, color, 1, is_rb⟩]
  else
    (List.range nLanes).mapM (fun li =>
      (offset_line sq merged (laneOffset nLanes li)).map
        (fun geo => ⟨geo, roundTo 3 avg_sr, truncInt avg_flow, color, nLanes, is_rb⟩))

/-- A validator verdict: the three classified statuses and "no data". -/
inductive Verdict where
  | good
  | needsTuning
  | underCongests
  | noData
deriving DecidableEq

/-- A corridor's matching speeds: the `mean_speed_kmh` of every edge whose
representative point lies inside the corridor's bounding box (both bounds
inclusive in each coordinate).  `ecs` is the `edge_coords` table of
`(lon, lat, speed)` entries. -/
def corridorSpeeds (lon0 lon1 lat0 lat1 : ℚ) (ecs : List (ℚ × ℚ × ℚ)) : List ℚ :=
  (ecs.filter (fun c => decide (lon0 ≤ c.1 ∧ c.1 ≤ lon1 ∧ lat0 ≤ c.2.1 ∧ c.2.1 ≤ lat1))).map
    (fun c => c.2.2)

/-- The per-corridor validation of `postprocess.py` step 5 (lines 240–250):
"no data" when no edge point falls in the box; otherwise classify the ratio
of the mean matching speed to the reference speed. -/
def validateCorridor (lon0 lon1 lat0 lat1 : ℚ) (google : ℚ)
    (ecs : List (ℚ × ℚ × ℚ)) : Verdict :=
  let speeds := corridorSpeeds lon0 lon1 lat0 lat1 ecs
  if speeds = [] then Verdict.noData
  else
    let sim := speeds.sum / (speeds.length : ℚ)
    let ratio := sim / google
    if ratio < 3/2 then Verdict.good
    else if ratio < 5/2 then Verdict.needsTuning
    else Verdict.underCongests

/-- The ratio the validator computes for a corridor with matching speeds. -/
def corridorRatio (lon0 lon1 lat0 lat1 : ℚ) (google : ℚ)
    (ecs : List (ℚ × ℚ × ℚ)) : ℚ :=
  let speeds := corridorSpeeds lon0 lon1 lat0 lat1 ecs
  speeds.sum / (speeds.length : ℚ) / google


/-- The accumulator cell for segment `e` after folding the samples `fs` on
top of a previous cell `o`. -/
def addSamples (o : Option (ℚ × ℕ)) (fs : List ℚ) : Option (ℚ × ℕ) :=
  match o with
  | none => if fs = [] then none else some (fs.sum, fs.length)
  | some (sm, c) => some (sm + fs.sum, c + fs.length)


/-- The waypoint time sequence of a trajectory. -/
def wpTimes (ws : List Wp) : List ℤ := ws.map (·.1)

/-- Scan invariant: every accumulated trajectory has non-decreasing waypoint
times, all inside the buffered morning window, and none later than the time
cursor `c`. -/
def TrajInv (c : ℚ) (vs : List (String × List Wp)) : Prop :=
  ∀ p ∈ vs, List.Chain' (· ≤ ·) (wpTimes p.2) ∧
    ∀ w ∈ p.2, MORNING_START - BUFFER ≤ (w.1 : ℚ) ∧ (w.1 : ℚ) ≤ MORNING_END + BUFFER ∧
      (w.1 : ℚ) ≤ c

/-- The claimed per-trajectory output property: non-decreasing waypoint
times, all inside the buffered morning window. -/
def TrajOK (vs : List (String × List Wp)) : Prop :=
  ∀ p ∈ vs, List.Chain' (· ≤ ·) (wpTimes p.2) ∧
    ∀ w ∈ p.2, MORNING_START - BUFFER ≤ (w.1 : ℚ) ∧ (w.1 : ℚ) ≤ MORNING_END + BUFFER

/-- A trace that repeats the same in-window timestep time five times, each
followed by one sample of vehicle `v`: its timestep times are (weakly)
monotone, yet the five collected waypoints share one time. -/
def dupTimeTrace : List Line :=
  [Line.timestep (some 25200), Line.vehicle (some "v") (some 0) (some 0) (some 0) none,
   Line.timestep (some 25200), Line.vehicle (some "v") (some 0) (some 0) (some 0) none,
   Line.timestep (some 25200), Line.vehicle (some "v") (some 0) (some 0) (some 0) none,
   Line.timestep (some 25200), Line.vehicle (some "v") (some 0) (some 0) (some 0) none,
   Line.timestep (some 25200), Line.vehicle (some "v") (some 0) (some 0) (some 0) none]

/-- The waypoint recorded by the step-4 scan for a sample with `x = y =
speed = 0` at time 25200. -/
def zeroWp : Wp := p4Wp 25200 0 0 0

/-- A distinct vehicle id for each natural number. -/
def vidOf (k : ℕ) : String := String.mk (List.replicate k 'a')

/-- One in-window timestep followed by five identical samples of vehicle
`v`. -/
def vehBlock (v : String) : List Line :=
  Line.timestep (some 25200) ::
    List.replicate 5 (Line.vehicle (some v) (some 0) (some 0) (some 0) none)

/-- A trace giving `n` distinct vehicles five in-window waypoints each. -/
def manyTrace (n : ℕ) : List Line := ((List.range n).map vidOf).flatMap vehBlock

/-! ## Claim C5: the congestion classifier -/

/-- Claim C5: `sr_to_color` maps every speed ratio into one of exactly 6
ordered severity bands delimited by the ascending thresholds
0.25, 0.45, 0.60, 0.75, 0.90, and a ratio exactly equal to a threshold is
assigned to the next, less severe band. -/
theorem sr_to_color_bands (r : ℚ) :
    sr_to_color r ∈ severityColors ∧
    (r < 1/4 → sr_to_color r = [204, 0, 0]) ∧
    (1/4 ≤ r → r < 9/20 → sr_to_color r = [255, 68, 0]) ∧
    (9/20 ≤ r → r < 3/5 → sr_to_color r = [255, 136, 0]) ∧
    (3/5 ≤ r → r < 3/4 → sr_to_color r = [255, 187, 0]) ∧
    (3/4 ≤ r → r < 9/10 → sr_to_color r = [136, 204, 0]) ∧
    (9/10 ≤ r → sr_to_color r = [0, 170, 68]) ∧
    severityColors.Nodup := by
  unfold sr_to_color severityColors
  split_ifs with h1 h2 h3 h4 h5 <;>
    exact ⟨by simp, by intros; first | rfl | linarith,
      by intros; first | rfl | linarith, by intros; first | rfl | linarith,
      by intros; first | rfl | linarith, by intros; first | rfl | linarith,
      by intros; first | rfl | linarith, by decide⟩

/-- Witness for C5 at the boundary ratio 0.25: it is classified into the
second (less severe) band. -/
theorem sr_to_color_bands_witness : sr_to_color (1/4) = [255, 68, 0] :=
  (sr_to_color_bands (1/4)).2.2.1 (by norm_num) (by norm_num)

/-! ## Claim C8: the validator -/

/-- Claim C8: for every corridor, the validator reports "no data" exactly
when no edge's representative point lies in the bounding box; otherwise it
classifies the ratio of mean matching speed to reference speed as "good"
iff ratio < 1.5, "needs tuning" iff 1.5 ≤ ratio < 2.5, and
"model under-congests" otherwise. -/
theorem validateCorridor_classification (lon0 lon1 lat0 lat1 google : ℚ)
    (ecs : List (ℚ × ℚ × ℚ)) :
    (validateCorridor lon0 lon1 lat0 lat1 google ecs = Verdict.noData ↔
      corridorSpeeds lon0 lon1 lat0 lat1 ecs = []) ∧
    (corridorSpeeds lon0 lon1 lat0 lat1 ecs ≠ [] →
      ((validateCorridor lon0 lon1 lat0 lat1 google ecs = Verdict.good ↔
          corridorRatio lon0 lon1 lat0 lat1 google ecs < 3/2) ∧
       (validateCorridor lon0 lon1 lat0 lat1 google ecs = Verdict.needsTuning ↔
          3/2 ≤ corridorRatio lon0 lon1 lat0 lat1 google ecs ∧
          corridorRatio lon0 lon1 lat0 lat1 google ecs < 5/2) ∧
       (validateCorridor lon0 lon1 lat0 lat1 google ecs = Verdict.underCongests ↔
          5/2 ≤ corridorRatio lon0 lon1 lat0 lat1 google ecs))) := by
  unfold validateCorridor corridorRatio
  dsimp only
  split_ifs with h0 h1 h2 <;>
    refine ⟨by simp [h0], fun hne => ⟨?_, ?_, ?_⟩⟩ <;>
    constructor <;> intro h <;> simp_all <;> linarith

/-- Witness for C8, the specified scenario: a box containing exactly one
sample at 20 km/h against a reference of 10 km/h gives ratio 2.0 and the
verdict "needs tuning". -/
theorem validateCorridor_classification_witness :
    validateCorridor 0 1 0 1 10 [(0, 0, 20)] = Verdict.needsTuning := by
  have h := (validateCorridor_classification 0 1 0 1 10 [(0, 0, 20)]).2
    (by norm_num [corridorSpeeds])
  exact h.2.1.mpr (by norm_num [corridorRatio, corridorSpeeds])

/-! ## Claim C9: malformed lines are skipped -/

/-- Claim C9: a vehicle sample line missing any required attribute (`id`,
`x`, `y`, `speed` for the trajectory scans; `lane`, `speed` for the
aggregation scan), or a timestep boundary line whose time attribute fails
to extract, leaves every accumulator and the time cursor unchanged, and the
scan continues with the next line — it never aborts the run. -/
theorem malformed_line_skipped (vid : Option String) (x y sp : Option ℚ)
    (lane : Option String) (ls : List Line) (s1 : DState) (s4 : P4State) (s3 : AggState) :
    ((vid = none ∨ x = none ∨ y = none ∨ sp = none) →
      deckglScanEarly (Line.vehicle vid x y sp lane :: ls) s1 = deckglScanEarly ls s1 ∧
      pp4ScanEarly (Line.vehicle vid x y sp lane :: ls) s4 = pp4ScanEarly ls s4) ∧
    ((lane = none ∨ sp = none) →
      aggScan (Line.vehicle vid x y sp lane :: ls) s3 = aggScan ls s3) ∧
    deckglScanEarly (Line.timestep none :: ls) s1 = deckglScanEarly ls s1 ∧
    pp4ScanEarly (Line.timestep none :: ls) s4 = pp4ScanEarly ls s4 ∧
    aggScan (Line.timestep none :: ls) s3 = aggScan ls s3 := by
  refine ⟨fun h => ⟨?_, ?_⟩, fun h => ?_, rfl, rfl, rfl⟩
  · rcases vid with _ | v <;> rcases x with _ | xv <;> rcases y with _ | yv <;>
      rcases sp with _ | sv <;> simp_all [deckglScanEarly]
  · rcases vid with _ | v <;> rcases x with _ | xv <;> rcases y with _ | yv <;>
      rcases sp with _ | sv <;> simp_all [pp4ScanEarly]
  · rcases lane with _ | l <;> rcases sp with _ | sv <;> simp_all [aggScan]

/-- Witness for C9: a sample line with every attribute missing and a
timestep line without a time are both skipped by all three scanners, on the
initial states. -/
theorem malformed_line_skipped_witness :
    (deckglScanEarly [Line.vehicle none none none none none] dInit = deckglScanEarly [] dInit ∧
     pp4ScanEarly [Line.vehicle none none none none none] p4Init = pp4ScanEarly [] p4Init) ∧
    aggScan [Line.vehicle none none none none none] aggInit = aggScan [] aggInit ∧
    deckglScanEarly [Line.timestep none] dInit = deckglScanEarly [] dInit := by
  have h := malformed_line_skipped none none none none none [] dInit p4Init aggInit
  exact ⟨h.1 (Or.inl rfl), h.2.1 (Or.inl rfl), h.2.2.1⟩

/-! ## Claim C4: the edge aggregator -/

theorem addSamples_nil (o : Option (ℚ × ℕ)) : addSamples o [] = o := by
  rcases o with _ | ⟨sm, c⟩ <;> simp [addSamples]

theorem addSamples_cons (o : Option (ℚ × ℕ)) (v : ℚ) (fs : List ℚ) :
    addSamples o (v :: fs) =
      addSamples (match o with
        | none => some (v, 1)
        | some (sm, c) => some (sm + v, c + 1)) fs := by
  rcases o with _ | ⟨sm, c⟩ <;> simp [addSamples, add_assoc, Nat.add_comm, Nat.add_assoc]

theorem lookupTab_foldEdge (tab : List (String × ℚ × ℕ)) (k e : String) (v : ℚ) :
    lookupTab (foldEdge tab k v) e =
      if k = e then
        match lookupTab tab e with
        | none => some (v, 1)
        | some (sm, c) => some (sm + v, c + 1)
      else lookupTab tab e := by
  induction tab with
  | nil =>
      by_cases hk : k = e <;> simp [foldEdge, lookupTab, hk]
  | cons hd tl ih =>
      obtain ⟨k', sm', c'⟩ := hd
      by_cases h1 : k' = k
      · subst h1
        by_cases h2 : k' = e <;> simp [foldEdge, lookupTab, h2]
      · by_cases h2 : k' = e
        · subst h2
          have hk : ¬k = k' := fun h => h1 h.symm
          simp [foldEdge, lookupTab, h1, hk]
        · simp [foldEdge, lookupTab, h1, h2, ih]

theorem aggScan_lookup (ls : List Line) (s : AggState) (e : String) :
    lookupTab (aggScan ls s).table e =
      addSamples (lookupTab s.table e) (foldedAux s.sampleThis ls e) := by
  induction ls generalizing s with
  | nil => simp [aggScan, foldedAux, addSamples_nil]
  | cons l ls ih =>
      cases l with
      | timestep t =>
          rcases t with _ | t
          · simpa [aggScan, foldedAux] using ih s
          · simpa [aggScan, foldedAux] using ih ⟨s.table, t, inPeak t, sampleOf t⟩
      | vehicle vid x y sp lane =>
          by_cases hs : s.sampleThis
          · rcases lane with _ | l <;> rcases sp with _ | v
            · simpa [aggScan, foldedAux, hs] using ih s
            · simpa [aggScan, foldedAux, hs] using ih s
            · simpa [aggScan, foldedAux, hs] using ih s
            · have h1 : aggScan (Line.vehicle vid x y (some v) (some l) :: ls) s =
                  aggScan ls ⟨foldEdge s.table (baseOfLane l) (v * (18/5)), s.curTime,
                    s.peak, s.sampleThis⟩ := by simp [aggScan, hs]
              by_cases hb : baseOfLane l = e
              · have h2 : foldedAux s.sampleThis
                    (Line.vehicle vid x y (some v) (some l) :: ls) e
                      = v * (18/5) :: foldedAux s.sampleThis ls e := by
                  simp [foldedAux, hs, hb]
                rw [h1, ih, h2, addSamples_cons]
                simp [lookupTab_foldEdge, hb]
              · have h2 : foldedAux s.sampleThis
                    (Line.vehicle vid x y (some v) (some l) :: ls) e
                      = foldedAux s.sampleThis ls e := by
                  simp [foldedAux, hs, hb]
                rw [h1, ih, h2]
                simp [lookupTab_foldEdge, hb]
          · rcases lane with _ | l <;> rcases sp with _ | v <;>
              simpa [aggScan, foldedAux, hs] using ih s
      | other => simpa [aggScan, foldedAux] using ih s

/-- Claim C4: a segment id is present in the finalized aggregate table
exactly when at least one sample was folded for it, in which case its cell
is the (sum, count) of the km/h-converted speeds of exactly those samples,
and its mean speed `sum / count` equals their sum divided by their count. -/
theorem aggTable_mean_correct (ls : List Line) (e : String) :
    lookupTab (aggTable ls) e =
      (if foldedSamples ls e = [] then none
       else some ((foldedSamples ls e).sum, (foldedSamples ls e).length)) ∧
    ∀ sm c, lookupTab (aggTable ls) e = some (sm, c) →
      meanSpeed sm c = (foldedSamples ls e).sum / ((foldedSamples ls e).length : ℚ) := by
  have h1 : lookupTab (aggTable ls) e =
      (if foldedSamples ls e = [] then none
       else some ((foldedSamples ls e).sum, (foldedSamples ls e).length)) := by
    have := aggScan_lookup ls aggInit e
    simpa [aggTable, aggInit, lookupTab, addSamples, foldedSamples] using this
  refine ⟨h1, fun sm c hc => ?_⟩
  rw [h1] at hc
  by_cases hf : foldedSamples ls e = []
  · simp [hf] at hc
  · simp only [hf, if_neg, ite_false] at hc
    obtain ⟨h2, h3⟩ := Prod.mk.injEq .. ▸ Option.some.injEq .. ▸ hc
    simp only [Option.some.injEq, Prod.mk.injEq] at hc
    obtain ⟨h2, h3⟩ := hc
    subst h2 h3
    rfl

/-- Witness for C4: a trace with one sampled vehicle on lane `e1_0` at
10 m/s puts `(36, 1)` in the table for segment `e1`, whose mean speed is
36 km/h. -/
theorem aggTable_mean_correct_witness :
    lookupTab (aggTable [Line.timestep (some 25200),
        Line.vehicle none none none (some 10) (some "e1_0")]) "e1" = some (36, 1) ∧
    meanSpeed 36 1 = 36 := by
  have hfs : foldedSamples [Line.timestep (some 25200),
      Line.vehicle none none none (some 10) (some "e1_0")] "e1" = [36] := by
    have hb : baseOfLane "e1_0" = "e1" := by decide
    norm_num [foldedSamples, foldedAux, sampleOf, inPeak, truncInt, hb,
      MORNING_START, MORNING_END, EVENING_START, EVENING_END, SAMPLE_EVERY]
  have h := aggTable_mean_correct [Line.timestep (some 25200),
      Line.vehicle none none none (some 10) (some "e1_0")] "e1"
  have h1 : lookupTab (aggTable [Line.timestep (some 25200),
      Line.vehicle none none none (some 10) (some "e1_0")]) "e1" = some (36, 1) := by
    rw [h.1, hfs]; norm_num
  refine ⟨h1, ?_⟩
  have := h.2 36 1 h1
  rw [this, hfs]
  norm_num

/-! ## Claims C6, C10, C7: geometry merging, lane offsetting, feature emission -/

theorem mergeStep_nil (ll : List Point) : mergeStep [] ll = ll := by
  cases ll <;> rfl

theorem mergeStep_close (merged : List Point) (p q : Point) (rest : List Point)
    (hl : merged.getLast? = some p)
    (h1 : |q.1 - p.1| < 1/20000) (h2 : |q.2 - p.2| < 1/20000) :
    mergeStep merged (q :: rest) = merged ++ rest := by
  unfold mergeStep
  rw [hl]
  simp only []
  exact if_pos ⟨h1, h2⟩

theorem mergeShapes_pair (a b : List Point) : mergeShapes [a, b] = mergeStep a b := by
  simp [mergeShapes, mergeStep_nil]

theorem mergeShapes_single (a : List Point) : mergeShapes [a] = a := by
  simp [mergeShapes, mergeStep_nil]

/-- Claim C6: merging two ordered adjacent segments whose polylines share an
endpoint within 5e-5 degrees in each coordinate yields
`length a + length b - 1` points, not `length a + length b`; and a group
whose merged polyline has fewer than 2 points produces no feature. -/
theorem merge_shared_endpoint_and_short_group (a b : List Point) (p q : Point)
    (sq : ℚ → ℚ) (nLanes : ℕ) (edges : List EdgeInfo)
    (ha : a.getLast? = some p) (hb : b.head? = some q)
    (h1 : |q.1 - p.1| < 1/20000) (h2 : |q.2 - p.2| < 1/20000) :
    (mergeShapes [a, b]).length = a.length + b.length - 1 ∧
    ((mergeShapes (edges.map (·.shape))).length < 2 →
      groupFeatures sq nLanes edges = some []) := by
  constructor
  · cases b with
    | nil => simp at hb
    | cons q' rest =>
        have hq : q' = q := by simpa using hb
        subst hq
        rw [mergeShapes_pair, mergeStep_close a p q' rest ha h1 h2]
        simp only [List.length_append, List.length_cons]
        omega
  · intro hm
    unfold groupFeatures
    rw [if_pos hm]

/-- Witness for C6: two unit segments sharing the endpoint `(1, 0)` merge to
3 points, and a group whose single shape has one point emits no feature. -/
theorem merge_shared_endpoint_and_short_group_witness :
    (mergeShapes [[((0:ℚ), (0:ℚ)), (1, 0)], [(1, 0), (2, 0)]]).length = 3 ∧
    groupFeatures (fun x => x) 2 [⟨[(0, 0)], some (1, 1), 1, false⟩] = some [] := by
  have h := merge_shared_endpoint_and_short_group
    [((0:ℚ), (0:ℚ)), (1, 0)] [(1, 0), (2, 0)] (1, 0) (1, 0)
    (fun x => x) 2 [⟨[(0, 0)], some (1, 1), 1, false⟩]
    (by simp) (by simp) (by norm_num) (by norm_num)
  exact ⟨h.1, h.2 (by simp [mergeShapes_single])⟩

theorem dirAt_isSome (coords : List Point) (i : ℕ)
    (h2 : 2 ≤ coords.length) (hi : i < coords.length) : (dirAt coords i).isSome := by
  unfold dirAt
  by_cases h0 : i = 0
  · have hl1 : 1 < coords.length := by omega
    have hl0 : 0 < coords.length := by omega
    simp [h0, List.getElem?_eq_getElem hl1, List.getElem?_eq_getElem hl0]
  · by_cases hlast : i = coords.length - 1
    · have hn1 : coords.length - 1 < coords.length := by omega
      have hn2 : coords.length - 2 < coords.length := by omega
      have hne : coords.length - 1 ≠ 0 := by omega
      subst hlast
      simp [hne, h2, List.getElem?_eq_getElem hn1, List.getElem?_eq_getElem hn2]
    · have hp1 : i + 1 < coords.length := by omega
      have hm1 : i - 1 < coords.length := by omega
      simp [h0, hlast, List.getElem?_eq_getElem hp1, List.getElem?_eq_getElem hm1]

theorem offsetPoint_isSome (sq : ℚ → ℚ) (coords : List Point) (off : ℚ) (i : ℕ)
    (h2 : 2 ≤ coords.length) (hi : i < coords.length) :
    (offsetPoint sq coords off i).isSome := by
  obtain ⟨d, hd⟩ := Option.isSome_iff_exists.mp (dirAt_isSome coords i h2 hi)
  unfold offsetPoint
  rw [List.getElem?_eq_getElem hi, hd]
  by_cases hL : sq (d.1 * d.1 + d.2 * d.2) = 0 <;> simp [hL]

theorem mapM_option_length {α β : Type} (f : α → Option β) (l : List α)
    (h : ∀ x ∈ l, (f x).isSome) :
    ∃ r, l.mapM f = some r ∧ r.length = l.length := by
  induction l with
  | nil => exact ⟨[], rfl, rfl⟩
  | cons a l ih =>
      obtain ⟨b, hb⟩ := Option.isSome_iff_exists.mp (h a (by simp))
      obtain ⟨r, hr, hlen⟩ := ih (fun x hx => h x (by simp [hx]))
      refine ⟨b :: r, ?_, by simp [hlen]⟩
      rw [List.mapM_cons, hb, hr]
      rfl

theorem mapM_option_getElem {α β : Type} (f : α → Option β) :
    ∀ (l : List α) (r : List β), l.mapM f = some r →
      ∀ i : ℕ, r[i]? = (l[i]?).bind f := by
  intro l
  induction l with
  | nil =>
      intro r hr i
      rw [show (([] : List α).mapM f) = some [] from rfl] at hr
      cases hr
      simp
  | cons a l ih =>
      intro r hr i
      rw [List.mapM_cons] at hr
      rcases hfa : f a with _ | b
      · rw [hfa] at hr; simp at hr
      · rw [hfa] at hr
        rcases hfl : l.mapM f with _ | r'
        · rw [hfl] at hr; simp at hr
        · rw [hfl] at hr
          have hr2 : some (b :: r') = some r := hr
          cases hr2
          cases i with
          | zero => simp [hfa]
          | succ j => simpa using ih r' hfl j

/-- Shared helper: `offset_line` succeeds on any polyline with at least two
points and preserves the number of points. -/
theorem offset_line_some (sq : ℚ → ℚ) (coords : List Point) (off : ℚ)
    (h2 : 2 ≤ coords.length) :
    ∃ res, offset_line sq coords off = some res ∧ res.length = coords.length := by
  obtain ⟨r, hr, hlen⟩ := mapM_option_length (offsetPoint sq coords off)
    (List.range coords.length)
    (fun i hi => offsetPoint_isSome sq coords off i h2 (List.mem_range.mp hi))
  exact ⟨r, hr, by rw [hlen, List.length_range]⟩

/-- Claim C10: on any polyline with at least 2 points, `offset_line` is
total (no index is out of range), its output has exactly as many points as
its input, and a vertex whose local direction vector is zero is emitted
unchanged rather than divided by zero. -/
theorem offset_line_total (sq : ℚ → ℚ) (coords : List Point) (off : ℚ)
    (hsq : sq 0 = 0) (h2 : 2 ≤ coords.length) :
    ∃ res, offset_line sq coords off = some res ∧ res.length = coords.length ∧
      ∀ i pt, coords[i]? = some pt → dirAt coords i = some (0, 0) →
        res[i]? = some pt := by
  obtain ⟨res, hres, hlen⟩ := offset_line_some sq coords off h2
  refine ⟨res, hres, hlen, fun i pt hpt hdir => ?_⟩
  have hi : i < coords.length := by
    by_contra hge
    rw [List.getElem?_eq_none (by omega)] at hpt
    exact Option.noConfusion hpt
  have := mapM_option_getElem (offsetPoint sq coords off)
    (List.range coords.length) res hres i
  rw [this, List.getElem?_range hi]
  simp only [Option.bind_some, Option.some_bind]
  unfold offsetPoint
  rw [hpt, hdir]
  simp [hsq]

/-- Witness for C10: both vertices of the degenerate polyline
`[(0,0), (0,0)]` have zero direction vectors, so the output exists, has two
points, and passes the vertices through unchanged. -/
theorem offset_line_total_witness :
    ∃ res, offset_line (fun x => x) [((0:ℚ), (0:ℚ)), (0, 0)] 5 = some res ∧
      res.length = [((0:ℚ), (0:ℚ)), (0, 0)].length ∧
      ∀ i pt, [((0:ℚ), (0:ℚ)), (0, 0)][i]? = some pt →
        dirAt [((0:ℚ), (0:ℚ)), (0, 0)] i = some (0, 0) → res[i]? = some pt :=
  offset_line_total (fun x => x) [((0:ℚ), (0:ℚ)), (0, 0)] 5 rfl (by norm_num)

theorem laneOffsets_neg_reverse (n : ℕ) :
    (laneOffsets n).map (fun x => -x) = (laneOffsets n).reverse := by
  unfold laneOffsets
  rw [List.map_map, ← List.map_reverse, List.range_eq_range', List.reverse_range',
    ← List.range_eq_range', List.map_map]
  refine List.map_congr_left fun i hi => ?_
  have hin : i < n := List.mem_range.mp hi
  have hcast : ((0 + n - 1 - i : ℕ) : ℚ) = (n : ℚ) - 1 - (i : ℚ) := by
    have h3 : 1 + i ≤ n := by omega
    rw [Nat.zero_add, Nat.sub_sub, Nat.cast_sub h3]
    push_cast
    ring
  simp only [Function.comp_apply, laneOffset, hcast]
  ring

/-- Claim C7: a rendered group with `n ≥ 2` lanes emits exactly `n` line
features, with lane offsets `(lane_index - (n-1)/2) * 3.2` whose multiset is
symmetric about zero; a rendered single-lane group emits exactly one feature
whose geometry is the merged polyline with no offset applied. -/
theorem group_lane_features (sq : ℚ → ℚ) (nLanes : ℕ) (edges : List EdgeInfo)
    (hm : 2 ≤ (mergeShapes (edges.map (·.shape))).length)
    (hr : rowsOf edges ≠ []) :
    (2 ≤ nLanes → ∃ fs, groupFeatures sq nLanes edges = some fs ∧
      fs.length = nLanes ∧
      ((laneOffsets nLanes).map (fun x => -x)).Perm (laneOffsets nLanes)) ∧
    (nLanes = 1 → ∃ f, groupFeatures sq nLanes edges = some [f] ∧
      f.geometry = mergeShapes (edges.map (·.shape))) := by
  have hnot : ¬(mergeShapes (edges.map (·.shape))).length < 2 := by omega
  constructor
  · intro hn2
    have hne1 : nLanes ≠ 1 := by omega
    obtain ⟨fs, hfs, hlen⟩ := mapM_option_length
      (fun li => (offset_line sq (mergeShapes (edges.map (·.shape)))
          (laneOffset nLanes li)).map
        (fun geo => Feature.mk geo
          (roundTo 3 (((rowsOf edges).map (fun r => r.1 * r.2.2)).sum /
            ((rowsOf edges).map (fun r => r.2.2)).sum))
          (truncInt (((rowsOf edges).map (fun r => r.2.1 * r.2.2)).sum /
            ((rowsOf edges).map (fun r => r.2.2)).sum))
          (sr_to_color (((rowsOf edges).map (fun r => r.1 * r.2.2)).sum /
            ((rowsOf edges).map (fun r => r.2.2)).sum))
          nLanes (edges.any (·.inRoundabout))))
      (List.range nLanes)
      (fun li _ => by
        obtain ⟨res, hres, _⟩ := offset_line_some sq
          (mergeShapes (edges.map (·.shape))) (laneOffset nLanes li) hm
        simp [hres])
    refine ⟨fs, ?_, by rw [hlen, List.length_range], ?_⟩
    · unfold groupFeatures
      rw [if_neg hnot]
      dsimp only
      rw [if_neg (by simpa using hr), if_neg hne1]
      exact hfs
    · rw [laneOffsets_neg_reverse]
      exact List.reverse_perm (laneOffsets nLanes)
  · intro hn1
    subst hn1
    refine ⟨Feature.mk (mergeShapes (edges.map (·.shape)))
      (roundTo 3 (((rowsOf edges).map (fun r => r.1 * r.2.2)).sum /
        ((rowsOf edges).map (fun r => r.2.2)).sum))
      (truncInt (((rowsOf edges).map (fun r => r.2.1 * r.2.2)).sum /
        ((rowsOf edges).map (fun r => r.2.2)).sum))
      (sr_to_color (((rowsOf edges).map (fun r => r.1 * r.2.2)).sum /
        ((rowsOf edges).map (fun r => r.2.2)).sum))
      1 (edges.any (·.inRoundabout)), ?_, rfl⟩
    unfold groupFeatures
    rw [if_neg hnot]
    dsimp only
    rw [if_neg (by simpa using hr), if_pos rfl]

/-- Witness for C7: a rendered 2-lane group emits 2 features with offsets
symmetric about zero, and the same group rendered as single-lane emits one
feature carrying the merged polyline. -/
theorem group_lane_features_witness :
    (∃ fs, groupFeatures (fun x => x) 2
        [⟨[((0:ℚ), (0:ℚ)), (1, 0)], some (1/2, 3), 10, false⟩] = some fs ∧
      fs.length = 2 ∧ ((laneOffsets 2).map (fun x => -x)).Perm (laneOffsets 2)) ∧
    (∃ f, groupFeatures (fun x => x) 1
        [⟨[((0:ℚ), (0:ℚ)), (1, 0)], some (1/2, 3), 10, false⟩] = some [f] ∧
      f.geometry = mergeShapes
        ([⟨[((0:ℚ), (0:ℚ)), (1, 0)], some (1/2, 3), 10, false⟩].map
          (EdgeInfo.shape ·))) := by
  have hm : 2 ≤ (mergeShapes
      ([(⟨[((0:ℚ), (0:ℚ)), (1, 0)], some (1/2, 3), 10, false⟩ : EdgeInfo)].map
        (·.shape))).length := by
    simp [mergeShapes_single]
  have hr : rowsOf [(⟨[((0:ℚ), (0:ℚ)), (1, 0)], some (1/2, 3), 10, false⟩ : EdgeInfo)] ≠ [] := by
    simp [rowsOf]
  exact ⟨(group_lane_features (fun x => x) 2 _ hm hr).1 (by norm_num),
    (group_lane_features (fun x => x) 1 _ hm hr).2 rfl⟩

/-! ## Claim C1: early stop equals full scan -/

theorem deckglScanFull_frozen (ls : List Line) (s : DState) (hw : s.inWindow = false)
    (ht : ∀ u ∈ timesOf ls, MORNING_END + BUFFER < u) :
    (deckglScanFull ls s).vehicles = s.vehicles := by
  induction ls generalizing s with
  | nil => rfl
  | cons l ls ih =>
      cases l with
      | timestep t =>
          rcases t with _ | t
          · exact ih s hw ht
          · have hgt : MORNING_END + BUFFER < t := ht t (by simp [timesOf])
            have hw' : (decide (MORNING_START - BUFFER ≤ t ∧ t ≤ MORNING_END + BUFFER)) = false := by
              simp only [decide_eq_false_iff_not]
              rintro ⟨-, hle⟩
              linarith
            have := ih ⟨s.vehicles, t, decide (MORNING_START - BUFFER ≤ t ∧ t ≤ MORNING_END + BUFFER)⟩
              hw' (fun u hu => ht u (by simp [timesOf, hu]))
            simpa [deckglScanFull] using this
      | vehicle vid x y sp lane =>
          have : deckglScanFull (Line.vehicle vid x y sp lane :: ls) s = deckglScanFull ls s := by
            simp [deckglScanFull, hw]
          rw [this]
          exact ih s hw ht
      | other => exact ih s hw ht

theorem pp4ScanFull_frozen (ls : List Line) (s : P4State)
    (hc : MORNING_END + 60 < s.curTime)
    (ht : ∀ u ∈ timesOf ls, MORNING_END + 60 < u) :
    (pp4ScanFull ls s).vehicles = s.vehicles := by
  induction ls generalizing s with
  | nil => rfl
  | cons l ls ih =>
      cases l with
      | timestep t =>
          rcases t with _ | t
          · exact ih s hc ht
          · have hgt : MORNING_END + 60 < t := ht t (by simp [timesOf])
            have := ih ⟨s.vehicles, t⟩ hgt (fun u hu => ht u (by simp [timesOf, hu]))
            simpa [pp4ScanFull] using this
      | vehicle vid x y sp lane =>
          have hnot : ¬(MORNING_START - 60 ≤ s.curTime ∧ s.curTime ≤ MORNING_END + 60) := by
            rintro ⟨-, hle⟩
            linarith
          have : pp4ScanFull (Line.vehicle vid x y sp lane :: ls) s = pp4ScanFull ls s := by
            simp only [pp4ScanFull]
            rw [if_neg hnot]
          rw [this]
          exact ih s hc ht
      | other => exact ih s hc ht

theorem deckglScan_early_eq_full (ls : List Line) (s : DState)
    (hmono : (timesOf ls).Pairwise (· ≤ ·)) :
    (deckglScanEarly ls s).vehicles = (deckglScanFull ls s).vehicles := by
  induction ls generalizing s with
  | nil => rfl
  | cons l ls ih =>
      cases l with
      | timestep t =>
          rcases t with _ | t
          · exact ih s hmono
          · obtain ⟨hall, htail⟩ := List.pairwise_cons.mp (by simpa [timesOf] using hmono)
            by_cases hbr : MORNING_END + BUFFER < t
            · have h1 : deckglScanEarly (Line.timestep (some t) :: ls) s =
                  ⟨s.vehicles, t, decide (MORNING_START - BUFFER ≤ t ∧ t ≤ MORNING_END + BUFFER)⟩ := by
                simp [deckglScanEarly, hbr]
              have h2 : deckglScanFull (Line.timestep (some t) :: ls) s =
                  deckglScanFull ls
                    ⟨s.vehicles, t, decide (MORNING_START - BUFFER ≤ t ∧ t ≤ MORNING_END + BUFFER)⟩ := by
                simp [deckglScanFull]
              rw [h1, h2]
              have hw' : (decide (MORNING_START - BUFFER ≤ t ∧ t ≤ MORNING_END + BUFFER)) = false := by
                simp only [decide_eq_false_iff_not]
                rintro ⟨-, hle⟩
                linarith
              rw [deckglScanFull_frozen ls _ hw' (fun u hu => lt_of_lt_of_le hbr (hall u hu))]
            · have h1 : deckglScanEarly (Line.timestep (some t) :: ls) s =
                  deckglScanEarly ls
                    ⟨s.vehicles, t, decide (MORNING_START - BUFFER ≤ t ∧ t ≤ MORNING_END + BUFFER)⟩ := by
                simp [deckglScanEarly, hbr]
              have h2 : deckglScanFull (Line.timestep (some t) :: ls) s =
                  deckglScanFull ls
                    ⟨s.vehicles, t, decide (MORNING_START - BUFFER ≤ t ∧ t ≤ MORNING_END + BUFFER)⟩ := by
                simp [deckglScanFull]
              rw [h1, h2]
              exact ih _ htail
      | vehicle vid x y sp lane =>
          cases hw : s.inWindow
          · have h1 : deckglScanEarly (Line.vehicle vid x y sp lane :: ls) s =
                deckglScanEarly ls s := by simp [deckglScanEarly, hw]
            have h2 : deckglScanFull (Line.vehicle vid x y sp lane :: ls) s =
                deckglScanFull ls s := by simp [deckglScanFull, hw]
            rw [h1, h2]
            exact ih s hmono
          · rcases vid with _ | v <;> rcases x with _ | xv <;> rcases y with _ | yv <;>
              rcases sp with _ | sv <;>
              simp only [deckglScanEarly, deckglScanFull, hw, if_true] <;>
              exact ih _ hmono
      | other => exact ih s hmono

theorem pp4Scan_early_eq_full (ls : List Line) (s : P4State)
    (hmono : (timesOf ls).Pairwise (· ≤ ·)) :
    (pp4ScanEarly ls s).vehicles = (pp4ScanFull ls s).vehicles := by
  induction ls generalizing s with
  | nil => rfl
  | cons l ls ih =>
      cases l with
      | timestep t =>
          rcases t with _ | t
          · exact ih s hmono
          · obtain ⟨hall, htail⟩ := List.pairwise_cons.mp (by simpa [timesOf] using hmono)
            by_cases hbr : MORNING_END + 120 < t
            · have h1 : pp4ScanEarly (Line.timestep (some t) :: ls) s =
                  ⟨s.vehicles, t⟩ := by simp [pp4ScanEarly, hbr]
              have h2 : pp4ScanFull (Line.timestep (some t) :: ls) s =
                  pp4ScanFull ls ⟨s.vehicles, t⟩ := by simp [pp4ScanFull]
              rw [h1, h2]
              have hc : MORNING_END + 60 < t := by
                have : (60 : ℚ) < 120 := by norm_num
                linarith
              rw [pp4ScanFull_frozen ls _ hc
                (fun u hu => by
                  have := hall u hu
                  have h120 : MORNING_END + 60 < t := hc
                  linarith)]
            · have h1 : pp4ScanEarly (Line.timestep (some t) :: ls) s =
                  pp4ScanEarly ls ⟨s.vehicles, t⟩ := by simp [pp4ScanEarly, hbr]
              have h2 : pp4ScanFull (Line.timestep (some t) :: ls) s =
                  pp4ScanFull ls ⟨s.vehicles, t⟩ := by simp [pp4ScanFull]
              rw [h1, h2]
              exact ih _ htail
      | vehicle vid x y sp lane =>
          by_cases hwin : MORNING_START - 60 ≤ s.curTime ∧ s.curTime ≤ MORNING_END + 60
          · rcases vid with _ | v <;> rcases x with _ | xv <;> rcases y with _ | yv <;>
              rcases sp with _ | sv <;>
              simp only [pp4ScanEarly, pp4ScanFull, hwin, if_true] <;>
              exact ih _ hmono
          · have h1 : pp4ScanEarly (Line.vehicle vid x y sp lane :: ls) s =
                pp4ScanEarly ls s := by
              simp only [pp4ScanEarly]
              rw [if_neg hwin]
            have h2 : pp4ScanFull (Line.vehicle vid x y sp lane :: ls) s =
                pp4ScanFull ls s := by
              simp only [pp4ScanFull]
              rw [if_neg hwin]
            rw [h1, h2]
            exact ih s hmono
      | other => exact ih s hmono

/-- Claim C1: for a trace with monotonically non-decreasing timestep times,
the trajectory-building scans that stop early once the current time exceeds
the window end plus the exit tolerance produce exactly the same per-vehicle
waypoint tables as scans that read the entire file. -/
theorem early_stop_eq_full_scan (ls : List Line)
    (hmono : (timesOf ls).Pairwise (· ≤ ·)) :
    (deckglScanEarly ls dInit).vehicles = (deckglScanFull ls dInit).vehicles ∧
    (pp4ScanEarly ls p4Init).vehicles = (pp4ScanFull ls p4Init).vehicles :=
  ⟨deckglScan_early_eq_full ls dInit hmono, pp4Scan_early_eq_full ls p4Init hmono⟩

/-- Witness for C1: a monotone trace containing one in-window sample and a
post-window timestep (which triggers the early break) yields identical
waypoint tables for the early-stopping and the full scans. -/
theorem early_stop_eq_full_scan_witness :
    (deckglScanEarly [Line.timestep (some 25200),
        Line.vehicle (some "v") (some 1) (some 1) (some 1) none,
        Line.timestep (some 40000),
        Line.vehicle (some "w") (some 1) (some 1) (some 1) none] dInit).vehicles =
      (deckglScanFull [Line.timestep (some 25200),
        Line.vehicle (some "v") (some 1) (some 1) (some 1) none,
        Line.timestep (some 40000),
        Line.vehicle (some "w") (some 1) (some 1) (some 1) none] dInit).vehicles ∧
    (pp4ScanEarly [Line.timestep (some 25200),
        Line.vehicle (some "v") (some 1) (some 1) (some 1) none,
        Line.timestep (some 40000),
        Line.vehicle (some "w") (some 1) (some 1) (some 1) none] p4Init).vehicles =
      (pp4ScanFull [Line.timestep (some 25200),
        Line.vehicle (some "v") (some 1) (some 1) (some 1) none,
        Line.timestep (some 40000),
        Line.vehicle (some "w") (some 1) (some 1) (some 1) none] p4Init).vehicles :=
  early_stop_eq_full_scan _ (by norm_num [timesOf, List.pairwise_cons])

/-! ## Claim C3: output waypoint times -/

theorem mem_of_getLast?_eq {α : Type} (l : List α) (a : α) (h : l.getLast? = some a) :
    a ∈ l := by
  have h2 : a ∈ l.getLast? := h
  obtain ⟨hne, ha⟩ := List.mem_getLast?_eq_getLast h2
  rw [ha]
  exact List.getLast_mem hne

theorem mem_addWp (vs : List (String × List Wp)) (v : String) (w : Wp)
    (p : String × List Wp) (hp : p ∈ addWp vs v w) :
    p ∈ vs ∨ ∃ ws, p = (v, ws ++ [w]) ∧ ((v, ws) ∈ vs ∨ ws = []) := by
  induction vs with
  | nil =>
      simp only [addWp, List.mem_singleton] at hp
      exact Or.inr ⟨[], by simp [hp], Or.inr rfl⟩
  | cons hd tl ih =>
      obtain ⟨k, ws'⟩ := hd
      by_cases hk : k = v
      · subst hk
        simp only [addWp, if_pos rfl] at hp
        rcases List.mem_cons.mp hp with h | h
        · exact Or.inr ⟨ws', h, Or.inl (List.mem_cons_self _ _)⟩
        · exact Or.inl (List.mem_cons_of_mem _ h)
      · simp only [addWp, if_neg hk] at hp
        rcases List.mem_cons.mp hp with h | h
        · exact Or.inl (h ▸ List.mem_cons_self _ _)
        · rcases ih h with h2 | ⟨ws, hpe, hws⟩
          · exact Or.inl (List.mem_cons_of_mem _ h2)
          · refine Or.inr ⟨ws, hpe, ?_⟩
            rcases hws with h3 | h3
            · exact Or.inl (List.mem_cons_of_mem _ h3)
            · exact Or.inr h3

theorem trajInv_addWp (c : ℚ) (vs : List (String × List Wp)) (v : String) (a b d : ℚ)
    (hlo : MORNING_START - BUFFER ≤ c) (hhi : c ≤ MORNING_END + BUFFER)
    (hinv : TrajInv c vs) :
    TrajInv c (addWp vs v (truncInt c, a, b, d)) := by
  have h25 : (25140 : ℚ) ≤ c := by norm_num [MORNING_START, BUFFER] at hlo; linarith
  have h0 : (0 : ℚ) ≤ c := by linarith
  have htr : truncInt c = ⌊c⌋ := by simp [truncInt, h0]
  have hfl : (⌊c⌋ : ℚ) ≤ c := Int.floor_le c
  have hflo : (25140 : ℤ) ≤ ⌊c⌋ := Int.le_floor.mpr (by push_cast; linarith)
  intro p hp
  rcases mem_addWp vs v _ p hp with hmem | ⟨ws, rfl, hws⟩
  · exact hinv p hmem
  · have hwsOK : List.Chain' (· ≤ ·) (wpTimes ws) ∧
        ∀ w ∈ ws, MORNING_START - BUFFER ≤ (w.1 : ℚ) ∧ (w.1 : ℚ) ≤ MORNING_END + BUFFER ∧
          (w.1 : ℚ) ≤ c := by
      rcases hws with h | h
      · exact hinv _ h
      · subst h
        exact ⟨List.chain'_nil, by simp⟩
    constructor
    · rw [show wpTimes (ws ++ [(truncInt c, a, b, d)]) = wpTimes ws ++ [truncInt c] by
        simp [wpTimes]]
      rw [List.chain'_append]
      refine ⟨hwsOK.1, List.chain'_singleton _, ?_⟩
      intro z hz y hy
      have hy2 : truncInt c = y := by simpa using hy
      subst hy2
      have hzmem : z ∈ wpTimes ws := mem_of_getLast?_eq _ _ hz
      obtain ⟨w', hw', hz'⟩ := List.mem_map.mp hzmem
      rw [htr, ← hz']
      exact Int.le_floor.mpr (hwsOK.2 w' hw').2.2
    · intro w hw
      rcases List.mem_append.mp hw with h | h
      · exact hwsOK.2 w h
      · have hw2 : w = (truncInt c, a, b, d) := by simpa using h
        subst hw2
        refine ⟨?_, ?_, ?_⟩
        · rw [htr]
          have : ((25140 : ℤ) : ℚ) ≤ ((⌊c⌋ : ℤ) : ℚ) := by exact_mod_cast hflo
          norm_num [MORNING_START, BUFFER]
          push_cast at this
          linarith
        · rw [htr]; linarith
        · rw [htr]; exact hfl

theorem deckglScan_inv (ls : List Line) (s : DState)
    (hmono : (timesOf ls).Pairwise (· ≤ ·))
    (hcur : ∀ u ∈ timesOf ls, s.curTime ≤ u)
    (hwin : s.inWindow = true →
      MORNING_START - BUFFER ≤ s.curTime ∧ s.curTime ≤ MORNING_END + BUFFER)
    (hinv : TrajInv s.curTime s.vehicles) :
    TrajOK (deckglScanEarly ls s).vehicles := by
  induction ls generalizing s with
  | nil =>
      intro p hp
      exact ⟨(hinv p hp).1, fun w hw => ⟨((hinv p hp).2 w hw).1, ((hinv p hp).2 w hw).2.1⟩⟩
  | cons l ls ih =>
      cases l with
      | timestep t =>
          rcases t with _ | t
          · exact ih s hmono hcur hwin hinv
          · obtain ⟨hall, htail⟩ := List.pairwise_cons.mp (by simpa [timesOf] using hmono)
            have hct : s.curTime ≤ t := hcur t (by simp [timesOf])
            have hinv' : TrajInv t s.vehicles := fun p hp =>
              ⟨(hinv p hp).1, fun w hw =>
                ⟨((hinv p hp).2 w hw).1, ((hinv p hp).2 w hw).2.1,
                  le_trans ((hinv p hp).2 w hw).2.2 hct⟩⟩
            by_cases hbr : MORNING_END + BUFFER < t
            · have h1 : deckglScanEarly (Line.timestep (some t) :: ls) s =
                  ⟨s.vehicles, t,
                    decide (MORNING_START - BUFFER ≤ t ∧ t ≤ MORNING_END + BUFFER)⟩ := by
                simp [deckglScanEarly, hbr]
              rw [h1]
              intro p hp
              exact ⟨(hinv' p hp).1, fun w hw =>
                ⟨((hinv' p hp).2 w hw).1, ((hinv' p hp).2 w hw).2.1⟩⟩
            · have h1 : deckglScanEarly (Line.timestep (some t) :: ls) s =
                  deckglScanEarly ls
                    ⟨s.vehicles, t,
                      decide (MORNING_START - BUFFER ≤ t ∧ t ≤ MORNING_END + BUFFER)⟩ := by
                simp [deckglScanEarly, hbr]
              rw [h1]
              exact ih _ htail hall (fun hw' => of_decide_eq_true hw') hinv'
      | vehicle vid x y sp lane =>
          cases hwv : s.inWindow
          · have h1 : deckglScanEarly (Line.vehicle vid x y sp lane :: ls) s =
                deckglScanEarly ls s := by simp [deckglScanEarly, hwv]
            rw [h1]
            exact ih s hmono hcur hwin hinv
          · rcases vid with _ | v <;> rcases x with _ | xv <;> rcases y with _ | yv <;>
              rcases sp with _ | sv <;>
              simp only [deckglScanEarly, hwv, if_true] <;>
              first
              | exact ih _ hmono hcur hwin hinv
              | exact ih _ hmono hcur (fun _ => hwin hwv)
                  (trajInv_addWp s.curTime s.vehicles v (roundTo 5 xv) (roundTo 5 yv)
                    (roundTo 1 (sv * (18/5))) (hwin hwv).1 (hwin hwv).2 hinv)
      | other => exact ih s hmono hcur hwin hinv

theorem pp4Scan_inv (ls : List Line) (s : P4State)
    (hmono : (timesOf ls).Pairwise (· ≤ ·))
    (hcur : ∀ u ∈ timesOf ls, s.curTime ≤ u)
    (hinv : TrajInv s.curTime s.vehicles) :
    TrajOK (pp4ScanEarly ls s).vehicles := by
  induction ls generalizing s with
  | nil =>
      intro p hp
      exact ⟨(hinv p hp).1, fun w hw => ⟨((hinv p hp).2 w hw).1, ((hinv p hp).2 w hw).2.1⟩⟩
  | cons l ls ih =>
      cases l with
      | timestep t =>
          rcases t with _ | t
          · exact ih s hmono hcur hinv
          · obtain ⟨hall, htail⟩ := List.pairwise_cons.mp (by simpa [timesOf] using hmono)
            have hct : s.curTime ≤ t := hcur t (by simp [timesOf])
            have hinv' : TrajInv t s.vehicles := fun p hp =>
              ⟨(hinv p hp).1, fun w hw =>
                ⟨((hinv p hp).2 w hw).1, ((hinv p hp).2 w hw).2.1,
                  le_trans ((hinv p hp).2 w hw).2.2 hct⟩⟩
            by_cases hbr : MORNING_END + 120 < t
            · have h1 : pp4ScanEarly (Line.timestep (some t) :: ls) s =
                  ⟨s.vehicles, t⟩ := by simp [pp4ScanEarly, hbr]
              rw [h1]
              intro p hp
              exact ⟨(hinv' p hp).1, fun w hw =>
                ⟨((hinv' p hp).2 w hw).1, ((hinv' p hp).2 w hw).2.1⟩⟩
            · have h1 : pp4ScanEarly (Line.timestep (some t) :: ls) s =
                  pp4ScanEarly ls ⟨s.vehicles, t⟩ := by simp [pp4ScanEarly, hbr]
              rw [h1]
              exact ih _ htail hall hinv'
      | vehicle vid x y sp lane =>
          by_cases hwc : MORNING_START - 60 ≤ s.curTime ∧ s.curTime ≤ MORNING_END + 60
          · have hlo : MORNING_START - BUFFER ≤ s.curTime := by
              have := hwc.1
              norm_num [MORNING_START, BUFFER] at this ⊢
              linarith
            have hhi : s.curTime ≤ MORNING_END + BUFFER := by
              have := hwc.2
              norm_num [MORNING_END, BUFFER] at this ⊢
              linarith
            rcases vid with _ | v <;> rcases x with _ | xv <;> rcases y with _ | yv <;>
              rcases sp with _ | sv <;>
              simp only [pp4ScanEarly, hwc, if_true] <;>
              first
              | exact ih _ hmono hcur hinv
              | exact ih _ hmono hcur
                  (trajInv_addWp s.curTime s.vehicles v (roundTo 6 xv) (roundTo 6 yv)
                    (roundTo 1 (sv * (18/5))) hlo hhi hinv)
          · have h1 : pp4ScanEarly (Line.vehicle vid x y sp lane :: ls) s =
                pp4ScanEarly ls s := by
              simp only [pp4ScanEarly]
              rw [if_neg hwc]
            rw [h1]
            exact ih s hmono hcur hinv
      | other => exact ih s hmono hcur hinv

theorem mem_deckglFinalize (vs : List (String × List Wp)) (p : String × List Wp)
    (hp : p ∈ deckglFinalize vs) : p ∈ vs ∧ MIN_WAYPOINTS ≤ p.2.length := by
  unfold deckglFinalize at hp
  dsimp only at hp
  split_ifs at hp with h
  · have h1 := List.mem_of_mem_take hp
    have h2 := (List.mergeSort_perm _ _).mem_iff.mp h1
    exact ⟨List.mem_of_mem_filter h2, by simpa using List.of_mem_filter h2⟩
  · exact ⟨List.mem_of_mem_filter hp, by simpa using List.of_mem_filter hp⟩

theorem mem_pp4Deckgl (vs : List (String × List Wp)) (p : String × List Wp)
    (hp : p ∈ pp4Deckgl vs) : p ∈ vs ∧ MIN_WAYPOINTS ≤ p.2.length :=
  ⟨List.mem_of_mem_filter hp, by simpa [MIN_WAYPOINTS] using List.of_mem_filter hp⟩

/-- Claim C3 (amended): for every trace with monotonically non-decreasing,
nonnegative timestep times (the time regex only matches digits and dots),
every trajectory in the finalized outputs has monotonically non-decreasing
waypoint times that all lie within
[window_start − buffer, window_end + buffer].  ("Strictly increasing" fails:
repeated equal timestep times, which non-decreasing monotonicity permits,
produce equal waypoint times.) -/
theorem output_waypoint_times_monotone (ls : List Line)
    (hmono : (timesOf ls).Pairwise (· ≤ ·))
    (hnn : ∀ u ∈ timesOf ls, 0 ≤ u) :
    TrajOK (deckglFinalize (deckglScanEarly ls dInit).vehicles) ∧
    TrajOK (pp4Deckgl (pp4ScanEarly ls p4Init).vehicles) := by
  have hd : TrajOK (deckglScanEarly ls dInit).vehicles := by
    refine deckglScan_inv ls dInit hmono
      (fun u hu => le_trans (by norm_num [dInit]) (hnn u hu))
      (fun h => by simp [dInit] at h)
      (fun p hp => by simp [dInit] at hp)
  have hp4 : TrajOK (pp4ScanEarly ls p4Init).vehicles := by
    refine pp4Scan_inv ls p4Init hmono
      (fun u hu => le_trans (by norm_num [p4Init]) (hnn u hu))
      (fun p hp => by simp [p4Init] at hp)
  exact ⟨fun p hp => hd p (mem_deckglFinalize _ p hp).1,
    fun p hp => hp4 p (mem_pp4Deckgl _ p hp).1⟩

/-- Counterexample to C3 as stated: `dupTimeTrace` has monotonically
non-decreasing (and nonnegative) timestep times, yet the single output
trajectory's waypoint times are not strictly increasing (they are all
equal). -/
theorem strict_waypoint_times_refuted :
    (timesOf dupTimeTrace).Pairwise (· ≤ ·) ∧
    (∀ u ∈ timesOf dupTimeTrace, 0 ≤ u) ∧
    ∃ p ∈ deckglFinalize (deckglScanEarly dupTimeTrace dInit).vehicles,
      ¬ List.Chain' (· < ·) (wpTimes p.2) := by
  have hts : ∀ (rest : List Line) (vs : List (String × List Wp)) (c : ℚ) (win : Bool),
      deckglScanEarly (Line.timestep (some 25200) :: rest) ⟨vs, c, win⟩ =
        deckglScanEarly rest ⟨vs, 25200, true⟩ := by
    intro rest vs c win
    simp only [deckglScanEarly]
    rw [if_neg (by norm_num [MORNING_END, BUFFER]),
      decide_eq_true (show MORNING_START - BUFFER ≤ (25200 : ℚ) ∧
        (25200 : ℚ) ≤ MORNING_END + BUFFER by
          constructor <;> norm_num [MORNING_START, MORNING_END, BUFFER])]
  have hstep : ∀ (rest : List Line) (vs : List (String × List Wp)),
      deckglScanEarly
          (Line.vehicle (some "v") (some 0) (some 0) (some 0) none :: rest)
          ⟨vs, 25200, true⟩ =
        deckglScanEarly rest ⟨addWp vs "v" (dWp 25200 0 0 0), 25200, true⟩ := by
    intro rest vs
    rfl
  have hscan : (deckglScanEarly dupTimeTrace dInit).vehicles =
      [("v", [dWp 25200 0 0 0, dWp 25200 0 0 0, dWp 25200 0 0 0,
        dWp 25200 0 0 0, dWp 25200 0 0 0])] := by
    show (deckglScanEarly (Line.timestep (some 25200) ::
      Line.vehicle (some "v") (some 0) (some 0) (some 0) none ::
      Line.timestep (some 25200) ::
      Line.vehicle (some "v") (some 0) (some 0) (some 0) none ::
      Line.timestep (some 25200) ::
      Line.vehicle (some "v") (some 0) (some 0) (some 0) none ::
      Line.timestep (some 25200) ::
      Line.vehicle (some "v") (some 0) (some 0) (some 0) none ::
      Line.timestep (some 25200) ::
      [Line.vehicle (some "v") (some 0) (some 0) (some 0) none]) ⟨[], -1, false⟩).vehicles
      = _
    rw [hts, hstep, hts, hstep, hts, hstep, hts, hstep, hts, hstep]
    simp [deckglScanEarly, addWp]
  refine ⟨by norm_num [dupTimeTrace, timesOf, List.pairwise_cons],
    by norm_num [dupTimeTrace, timesOf], ?_⟩
  refine ⟨("v", [dWp 25200 0 0 0, dWp 25200 0 0 0, dWp 25200 0 0 0,
    dWp 25200 0 0 0, dWp 25200 0 0 0]), ?_, ?_⟩
  · rw [hscan]
    simp [deckglFinalize, MIN_WAYPOINTS, MAX_VEHICLES]
  · simp [wpTimes, List.chain'_cons, lt_irrefl]

/-- Witness for the amended C3 at the concrete trace `dupTimeTrace`. -/
theorem output_waypoint_times_monotone_witness :
    TrajOK (deckglFinalize (deckglScanEarly dupTimeTrace dInit).vehicles) ∧
    TrajOK (pp4Deckgl (pp4ScanEarly dupTimeTrace p4Init).vehicles) :=
  output_waypoint_times_monotone dupTimeTrace
    (by norm_num [dupTimeTrace, timesOf, List.pairwise_cons])
    (by norm_num [dupTimeTrace, timesOf])

/-! ## Claim C2: finalization cap and minimum length -/

theorem addWp_fresh (vs : List (String × List Wp)) (v : String) (w : Wp)
    (hv : v ∉ keysOf vs) : addWp vs v w = vs ++ [(v, [w])] := by
  induction vs with
  | nil => rfl
  | cons hd tl ih =>
      obtain ⟨k, ws⟩ := hd
      simp only [keysOf, List.map_cons, List.mem_cons, not_or] at hv
      obtain ⟨hvk, hvtl⟩ := hv
      have hkv : ¬k = v := fun h => hvk h.symm
      simp only [addWp, if_neg hkv, List.cons_append, List.cons.injEq, true_and]
      exact ih hvtl

theorem addWp_last (vs : List (String × List Wp)) (v : String) (ws : List Wp) (w : Wp)
    (hv : v ∉ keysOf vs) :
    addWp (vs ++ [(v, ws)]) v w = vs ++ [(v, ws ++ [w])] := by
  induction vs with
  | nil => simp [addWp]
  | cons hd tl ih =>
      obtain ⟨k, ws'⟩ := hd
      simp only [keysOf, List.map_cons, List.mem_cons, not_or] at hv
      obtain ⟨hvk, hvtl⟩ := hv
      have hkv : ¬k = v := fun h => hvk h.symm
      simp only [List.cons_append, addWp, if_neg hkv, List.cons.injEq, true_and]
      exact ih hvtl

theorem pp4_block (v : String) (vs : List (String × List Wp)) (c : ℚ) (ls : List Line)
    (hv : v ∉ keysOf vs) :
    pp4ScanEarly (vehBlock v ++ ls) ⟨vs, c⟩ =
      pp4ScanEarly ls ⟨vs ++ [(v, List.replicate 5 zeroWp)], 25200⟩ := by
  have hts : ∀ (rest : List Line) (vs' : List (String × List Wp)) (c' : ℚ),
      pp4ScanEarly (Line.timestep (some 25200) :: rest) ⟨vs', c'⟩ =
        pp4ScanEarly rest ⟨vs', 25200⟩ := by
    intro rest vs' c'
    simp only [pp4ScanEarly]
    rw [if_neg (by norm_num [MORNING_END])]
  have hstep : ∀ (rest : List Line) (vs' : List (String × List Wp)),
      pp4ScanEarly (Line.vehicle (some v) (some 0) (some 0) (some 0) none :: rest)
          ⟨vs', 25200⟩ =
        pp4ScanEarly rest ⟨addWp vs' v zeroWp, 25200⟩ := by
    intro rest vs'
    simp only [pp4ScanEarly]
    rw [if_pos ⟨by norm_num [MORNING_START], by norm_num [MORNING_END]⟩]
    rfl
  have e1 : addWp vs v zeroWp = vs ++ [(v, [zeroWp])] := addWp_fresh vs v zeroWp hv
  have e2 : addWp (vs ++ [(v, [zeroWp])]) v zeroWp = vs ++ [(v, [zeroWp, zeroWp])] := by
    simpa using addWp_last vs v [zeroWp] zeroWp hv
  have e3 : addWp (vs ++ [(v, [zeroWp, zeroWp])]) v zeroWp =
      vs ++ [(v, [zeroWp, zeroWp, zeroWp])] := by
    simpa using addWp_last vs v [zeroWp, zeroWp] zeroWp hv
  have e4 : addWp (vs ++ [(v, [zeroWp, zeroWp, zeroWp])]) v zeroWp =
      vs ++ [(v, [zeroWp, zeroWp, zeroWp, zeroWp])] := by
    simpa using addWp_last vs v [zeroWp, zeroWp, zeroWp] zeroWp hv
  have e5 : addWp (vs ++ [(v, [zeroWp, zeroWp, zeroWp, zeroWp])]) v zeroWp =
      vs ++ [(v, [zeroWp, zeroWp, zeroWp, zeroWp, zeroWp])] := by
    simpa using addWp_last vs v [zeroWp, zeroWp, zeroWp, zeroWp] zeroWp hv
  show pp4ScanEarly (Line.timestep (some 25200) ::
      Line.vehicle (some v) (some 0) (some 0) (some 0) none ::
      Line.vehicle (some v) (some 0) (some 0) (some 0) none ::
      Line.vehicle (some v) (some 0) (some 0) (some 0) none ::
      Line.vehicle (some v) (some 0) (some 0) (some 0) none ::
      Line.vehicle (some v) (some 0) (some 0) (some 0) none :: ls) ⟨vs, c⟩ = _
  rw [hts, hstep, e1, hstep, e2, hstep, e3, hstep, e4, hstep, e5]
  rfl

theorem pp4_blocks (ids : List String) (vs : List (String × List Wp)) (c : ℚ)
    (hnd : ids.Nodup) (hdisj : ∀ i ∈ ids, i ∉ keysOf vs) :
    (pp4ScanEarly (ids.flatMap vehBlock) ⟨vs, c⟩).vehicles =
      vs ++ ids.map (fun i => (i, List.replicate 5 zeroWp)) := by
  induction ids generalizing vs c with
  | nil => simp [pp4ScanEarly]
  | cons i ids ih =>
      rw [List.flatMap_cons, pp4_block i vs c _ (hdisj i (List.mem_cons_self _ _))]
      rw [ih (vs ++ [(i, List.replicate 5 zeroWp)]) 25200
        (List.nodup_cons.mp hnd).2 ?_]
      · rw [List.append_assoc]
        simp
      · intro j hj hmem
        have hj2 : j ∈ keysOf vs ∨ j = i := by
          simpa [keysOf] using hmem
        rcases hj2 with h | h
        · exact hdisj j (List.mem_cons_of_mem _ hj) h
        · subst h
          exact (List.nodup_cons.mp hnd).1 hj

theorem vidOf_injective : Function.Injective vidOf := by
  intro a b h
  have h2 : (vidOf a).data.length = (vidOf b).data.length := by rw [h]
  have ha : (vidOf a).data = List.replicate a 'a' := rfl
  have hb : (vidOf b).data = List.replicate b 'a' := rfl
  rw [ha, hb, List.length_replicate, List.length_replicate] at h2
  exact h2

/-- Counterexample to C2 as stated: on a trace giving 8001 distinct vehicles
five in-window waypoints each, the finalized trajectory output of
`postprocess.py` step 4 (which applies no cap) has 8001 > MAX_VEHICLES
trajectories. -/
theorem postprocess_cap_exceeded :
    ¬((pp4Deckgl (pp4ScanEarly (manyTrace 8001) p4Init).vehicles).length ≤ MAX_VEHICLES) := by
  have h := pp4_blocks ((List.range 8001).map vidOf) [] (-1)
    ((List.nodup_range 8001).map vidOf_injective) (by simp [keysOf])
  have hm : (pp4ScanEarly (manyTrace 8001) p4Init).vehicles =
      ((List.range 8001).map vidOf).map (fun i => (i, List.replicate 5 zeroWp)) := by
    rw [show manyTrace 8001 = ((List.range 8001).map vidOf).flatMap vehBlock from rfl,
      show p4Init = ⟨[], -1⟩ from rfl, h]
    simp
  have hfil : pp4Deckgl (((List.range 8001).map vidOf).map
      (fun i => (i, List.replicate 5 zeroWp))) =
      ((List.range 8001).map vidOf).map (fun i => (i, List.replicate 5 zeroWp)) := by
    unfold pp4Deckgl
    rw [List.filter_eq_self]
    intro p hp
    obtain ⟨i, _, rfl⟩ := List.mem_map.mp hp
    simp
  rw [hm, hfil]
  simp [MAX_VEHICLES]

/-- Claim C2 (amended): for every input trace, the finalized output of
`make_deckgl.py` contains at most MAX_VEHICLES (8000) trajectories and every
trajectory in it has at least MIN_WAYPOINTS (5) waypoints; the finalized
output of `postprocess.py` step 4 also keeps only trajectories with at least
5 waypoints, but applies no cap, so only the minimum-length half of the
claim holds for it. -/
theorem finalize_cap_and_min_length (ls : List Line) :
    (deckglFinalize (deckglScanEarly ls dInit).vehicles).length ≤ MAX_VEHICLES ∧
    (∀ p ∈ deckglFinalize (deckglScanEarly ls dInit).vehicles,
      MIN_WAYPOINTS ≤ p.2.length) ∧
    (∀ p ∈ pp4Deckgl (pp4ScanEarly ls p4Init).vehicles,
      MIN_WAYPOINTS ≤ p.2.length) := by
  refine ⟨?_, fun p hp => (mem_deckglFinalize _ p hp).2,
    fun p hp => (mem_pp4Deckgl _ p hp).2⟩
  unfold deckglFinalize
  dsimp only
  split_ifs with h
  · rw [List.length_take]
    exact min_le_left _ _
  · exact Nat.not_lt.mp h

/-- Witness for the amended C2 at the concrete trace `dupTimeTrace`. -/
theorem finalize_cap_and_min_length_witness :
    (deckglFinalize (deckglScanEarly dupTimeTrace dInit).vehicles).length ≤ MAX_VEHICLES ∧
    (∀ p ∈ deckglFinalize (deckglScanEarly dupTimeTrace dInit).vehicles,
      MIN_WAYPOINTS ≤ p.2.length) ∧
    (∀ p ∈ pp4Deckgl (pp4ScanEarly dupTimeTrace p4Init).vehicles,
      MIN_WAYPOINTS ≤ p.2.length) :=
  finalize_cap_and_min_length dupTimeTrace

end ChisinauTraffic
